import Mathlib

/-!
Verification of the myalgorithm-tracker result-processing pipeline.

This file gives a shallow embedding, in Lean, of the TypeScript code of the
tracker platform: the deduplicators (`KoreanBeautyTracker.mergeAndDedupe` and
`ResultProcessor.deduplicateResults`), the ranker (`ResultProcessor.rankResults`),
the engine operations (`TrackerEngine.createTracker`, `runTracker`,
`enrichResults`, `searchWithFirecrawl`, `getTrackerWithResults`,
`getPublicTrackers`), the Firecrawl service wrappers, and the
`POST /api/trackers` route handler.

External collaborators (Supabase, OpenAI, Firecrawl) are modelled as explicit
outcome parameters: each external call is represented by an `Except`-valued (or
inductive) outcome supplied in an environment record, exactly mirroring which
JavaScript expressions can throw and which return error objects.  JavaScript
truthiness of optional strings, arrays and booleans is modelled explicitly
(missing and empty string are falsy; an array, even empty, is truthy).
-/

namespace TrackerPlatform

/-! ### JavaScript-semantics helpers -/

/-- Model of building an array from a `Set`: `[...new Set(l)]` keeps the first
occurrence of each element, in input order. -/
def jsSetDedup (l : List String) : List String :=
  l.foldl (fun acc x => if x ∈ acc then acc else acc ++ [x]) []

/-- Model of `a || b` on optional strings: an absent or empty string is falsy. -/
def jsOrStr : Option String → Option String → Option String
  | some s, d => if s = "" then d else some s
  | none, d => d

/-- Character-wise lowercasing, the model of `String.prototype.toLowerCase`. -/
def jsToLower (s : String) : String := String.mk (s.data.map Char.toLower)

/-- Model of `String.prototype.slice(0, n)`. -/
def jsTake (s : String) (n : Nat) : String := String.mk (s.data.take n)

/-- Stable insertion of an element arriving after everything already placed:
the element is put after every earlier element `y` with `ge y x = true`
(the comparator says `y` may stay in front).  This models the placement a
stable JavaScript `Array.prototype.sort` gives a later element. -/
def jsInsert (ge : α → α → Bool) (x : α) : List α → List α
  | [] => [x]
  | y :: ys => if ge y x then y :: jsInsert ge x ys else x :: y :: ys

/-- Model of the stable `Array.prototype.sort` with a consistent comparator:
elements are inserted left to right, so ties keep input order.  `ge a b`
means the comparator allows `a` to come no later than `b`. -/
def jsSort (ge : α → α → Bool) (l : List α) : List α :=
  l.foldl (fun acc x => jsInsert ge x acc) []

/-- First-match lookup in an insertion-ordered key/value list, the semantics
of `Map.get` (and, as a test for `some`, of `Map.has`). -/
def lookupKey (k : String) : List (String × β) → Option β
  | [] => none
  | kv :: rest => if kv.1 = k then some kv.2 else lookupKey k rest

/-! ### KoreanBeautyTracker.mergeAndDedupe (proof-of-concept.md) -/

/-- One collected beauty-trend item (`Partial<BeautyTrend>`).  Only the fields
read or written by `mergeAndDedupe` are modelled; an absent `platforms`,
`mentions` or `images` field behaves as the code's `|| []` / `|| 0` defaults. -/
structure BeautyTrend where
  productName : Option String
  platforms : List String
  mentions : Option Nat
  images : List String
  deriving DecidableEq, Repr

/-- The merge the code performs when two items share a key:
`platforms: [...new Set([...existing.platforms, ...item.platforms])]`,
`mentions: (existing.mentions || 0) + (item.mentions || 0)`,
`images: [...new Set([...existing.images, ...item.images])]`; all other
fields (in particular `productName`) are kept from `existing` by the spread. -/
def mergeTrends (existing item : BeautyTrend) : BeautyTrend :=
  { existing with
    platforms := jsSetDedup (existing.platforms ++ item.platforms)
    mentions := some (existing.mentions.getD 0 + item.mentions.getD 0)
    images := jsSetDedup (existing.images ++ item.images) }

/-- The map key the code uses: `item.productName.toLowerCase()`, guarded by
`if (!item.productName) return;` — a missing or empty title is falsy, so such
items get no key. -/
def effectiveKey (i : BeautyTrend) : Option String :=
  match i.productName with
  | none => none
  | some n => if n = "" then none else some (jsToLower n)

/-- One iteration of the `items.forEach` loop of `mergeAndDedupe`, acting on
the insertion-ordered map (a JavaScript `Map` keeps insertion order, and
`set` on an existing key keeps its position). -/
def dedupeStep (m : List (String × BeautyTrend)) (item : BeautyTrend) :
    List (String × BeautyTrend) :=
  match effectiveKey item with
  | none => m
  | some key =>
    match lookupKey key m with
    | some _ => m.map (fun kv => if kv.1 = key then (key, mergeTrends kv.2 item) else kv)
    | none => m ++ [(key, item)]

/-- `KoreanBeautyTracker.mergeAndDedupe`: fold the items into the product map,
then return `Array.from(productMap.values())`. -/
def mergeAndDedupe (items : List BeautyTrend) : List BeautyTrend :=
  (items.foldl dedupeStep []).map Prod.snd

/-- The input items that carry a given normalized-title key. -/
def groupOf (k : String) (items : List BeautyTrend) : List BeautyTrend :=
  items.filter (fun i => decide (effectiveKey i = some k))

/-- Invariant of the product map: keys are distinct, and each stored value
still carries the title whose normalization is its key. -/
def goodMap (m : List (String × BeautyTrend)) : Prop :=
  (m.map Prod.fst).Nodup ∧ ∀ kv ∈ m, effectiveKey kv.2 = some kv.1

/-! ### ResultProcessor.deduplicateResults (result-processor.ts) -/

/-- One raw collected result as seen by `ResultProcessor`.  `images` and
`sources` are optional because the code guards them with truthiness checks
(an array, even empty, is truthy; an absent field is falsy);
`sources.push(duplicate.source)` pushes `undefined` when `source` is absent,
hence the `Option String` element type. -/
structure RawResult where
  title : Option String
  content : Option String
  images : Option (List String)
  sources : Option (List (Option String))
  source : Option String
  deriving DecidableEq, Repr

/-- `ResultProcessor.mergeResults`, mutating `existing` in place: append image
lists when the duplicate has one, push the duplicate's source, and keep the
longer content (`!existing.content || duplicate.content?.length >
existing.content.length`). -/
def mergeResults (existing duplicate : RawResult) : RawResult :=
  let e1 :=
    match duplicate.images with
    | some imgs => { existing with images := some (existing.images.getD [] ++ imgs) }
    | none => existing
  let e2 := { e1 with sources := some (e1.sources.getD [] ++ [duplicate.source]) }
  let replace :=
    match e2.content with
    | none => true
    | some c =>
      if c = "" then true
      else
        match duplicate.content with
        | some d => decide (c.length < d.length)
        | none => false
  if replace then { e2 with content := duplicate.content } else e2

/-- The string the code feeds to `md5`: `(result.title || '') + (result.content || '')`. -/
def contentToHash (r : RawResult) : String :=
  r.title.getD "" ++ r.content.getD ""

/-- Merge a duplicate into the first map entry carrying its hash (the inner
`for ... of contentHashes` loop breaks at the first match;
`calculateSimilarity` returns 1 exactly on hash equality, so the `> 0.85`
test is hash equality). -/
def updateFirst (hash : String) (r : RawResult) :
    List (String × RawResult) → List (String × RawResult)
  | [] => []
  | kv :: rest =>
    if kv.1 = hash then (kv.1, mergeResults kv.2 r) :: rest
    else kv :: updateFirst hash r rest

/-- One iteration of the `for (const result of results)` loop of
`deduplicateResults`, parameterized by the hash function (`md5` in the code;
the code only ever compares hashes for equality). -/
def dedupStep (h : String → String) (m : List (String × RawResult)) (r : RawResult) :
    List (String × RawResult) :=
  let hash := h (contentToHash r)
  match lookupKey hash m with
  | some _ => updateFirst hash r m
  | none => m ++ [(hash, r)]

/-- The hash-keyed accumulator built by `deduplicateResults`; `unique` holds
the same object references as the map values, in insertion order. -/
def dedupFold (h : String → String) (results : List RawResult) :
    List (String × RawResult) :=
  results.foldl (dedupStep h) []

/-- `ResultProcessor.deduplicateResults`: the `unique` array returned by the
loop (map values in insertion order, reflecting in-place merges). -/
def deduplicateResults (h : String → String) (results : List RawResult) :
    List RawResult :=
  (dedupFold h results).map Prod.snd

/-! ### ResultProcessor.rankResults (result-processor.ts) -/

/-- One processed item as seen by `rankResults`.  `media` is the list built by
`processMedia` (`a.media?.length || 0` reads its length), `publishedDate` and
`enrichedAt` are epoch milliseconds (`new Date(x).getTime()`). -/
structure RankItem where
  relevanceScore : Option Rat
  media : Option (List String)
  publishedDate : Option Int
  enrichedAt : Int
  source : Option String
  deriving DecidableEq, Repr

/-- The total score `rankResults` computes for an item:
`(relevanceScore || 0) * 10 + (media?.length || 0) * 5 +
Math.max(0, 10 - (now - time) / 86400000) + (qualitySources.includes(source) ? 3 : 0)`
with `time = new Date(publishedDate || enrichedAt).getTime()`. -/
def itemScore (now : Int) (a : RankItem) : Rat :=
  a.relevanceScore.getD 0 * 10
  + ((a.media.getD []).length : Rat) * 5
  + max 0 (10 - ((now - a.publishedDate.getD a.enrichedAt : Int) : Rat) / 86400000)
  + (if a.source = some "exa" ∨ a.source = some "firecrawl" then 3 else 0)

/-- `ResultProcessor.rankResults`: stable sort by total score, descending
(the comparator returns `scoreB - scoreA`). -/
def rankResults (now : Int) (results : List RankItem) : List RankItem :=
  jsSort (fun a b => decide (itemScore now b ≤ itemScore now a)) results

/-! ### Database rows (supabase schema) and engine data -/

/-- The `status` column of `tracker_runs`
(`CHECK (status IN ('pending','running','completed','failed'))`). -/
inductive RunStatus
  | pending
  | running
  | completed
  | failed
  deriving DecidableEq, Repr

/-- A row of the `trackers` table (the columns the engine reads or writes). -/
structure TrackerRow where
  id : Nat
  name : Option String
  description : Option String
  prompt : String
  configQueries : Option (List String)
  sources : Option (List String)
  isPublic : Bool
  lastRunAt : Option Int
  createdAt : Int
  deriving DecidableEq, Repr

/-- A row of the `tracker_runs` table. -/
structure RunRow where
  id : Nat
  trackerId : Nat
  status : RunStatus
  error : Option String
  startedAt : Int
  completedAt : Option Int
  deriving DecidableEq, Repr

/-- A row of the `tracker_results` table (row identity is by content here;
no claim depends on the generated UUID). -/
structure ResultRow where
  runId : Nat
  trackerId : Nat
  title : String
  description : Option String
  url : Option String
  images : List String
  source : String
  score : Option Rat
  deriving DecidableEq, Repr

/-- The persistent state the engine operates on. -/
structure Db where
  trackers : List TrackerRow
  runs : List RunRow
  results : List ResultRow
  nextTrackerId : Nat
  nextRunId : Nat
  deriving DecidableEq, Repr

/-- The engine-level `TrackerResult` interface. -/
structure TrackerResult where
  title : String
  description : Option String
  url : Option String
  images : List String
  source : String
  score : Option Rat
  rawContent : Option String
  deriving DecidableEq, Repr

/-! ### FirecrawlService (lib/services/firecrawl.ts) -/

/-- One item of the raw Firecrawl client search response. -/
structure FcClientItem where
  title : Option String
  url : Option String
  markdown : Option String
  screenshot : Option String
  score : Option Rat
  deriving DecidableEq, Repr

/-- One item of `FirecrawlService.search`'s normalized `data` array. -/
structure FcSearchItem where
  title : Option String
  url : Option String
  content : Option String
  screenshot : Option String
  score : Option Rat
  deriving DecidableEq, Repr

/-- Return shape of `FirecrawlService.search`. -/
structure FcSearchResult where
  success : Bool
  error : Option String
  data : Option (List FcSearchItem)
  deriving DecidableEq, Repr

/-- `FirecrawlService.search`: the underlying `client.search` call either
throws (caught, giving `success: false` with the error message) or responds,
possibly without a `data` array (`results.data?.map(...) || []`). -/
def fcSearch (outcome : Except String (Option (List FcClientItem))) : FcSearchResult :=
  match outcome with
  | .error e => { success := false, error := some e, data := none }
  | .ok none => { success := true, error := none, data := some [] }
  | .ok (some items) =>
    { success := true, error := none,
      data := some (items.map (fun it =>
        { title := it.title, url := it.url, content := it.markdown,
          screenshot := it.screenshot, score := it.score })) }

/-- Page data of a successful `client.scrapeUrl` response (`result.data` may
be absent, in which case every projected field is `undefined`). -/
structure FcPage where
  title : Option String
  markdown : Option String
  screenshot : Option String
  deriving DecidableEq, Repr

/-- Return shape of `FirecrawlService.scrapeUrl`. -/
structure FcScrapeResult where
  success : Bool
  error : Option String
  title : Option String
  content : Option String
  screenshot : Option String
  url : Option String
  deriving DecidableEq, Repr

/-- `FirecrawlService.scrapeUrl`: the client call either throws (caught) or
returns a page whose fields are projected with optional chaining. -/
def fcScrape (outcome : Except String (Option FcPage)) (url : String) : FcScrapeResult :=
  match outcome with
  | .error e =>
    { success := false, error := some e,
      title := none, content := none, screenshot := none, url := none }
  | .ok page =>
    { success := true, error := none,
      title := page.bind FcPage.title,
      content := page.bind FcPage.markdown,
      screenshot := page.bind FcPage.screenshot,
      url := some url }

/-! ### TrackerEngine (lib/trackers/engine.ts) -/

/-- `TrackerEngine.searchWithFirecrawl`: a failed or dataless search
contributes no results (`if (!result.success || !result.data) return []`);
otherwise each item is normalized (`item.title || 'Untitled'`,
`item.content?.slice(0, 200)`, `item.screenshot ? [item.screenshot] : []`). -/
def searchWithFirecrawl (outcome : Except String (Option (List FcClientItem))) :
    List TrackerResult :=
  let r := fcSearch outcome
  if r.success = false then []
  else
    match r.data with
    | none => []
    | some items =>
      items.map (fun item =>
        { title := (jsOrStr item.title (some "Untitled")).getD "Untitled"
          description := item.content.map (fun c => jsTake c 200)
          url := item.url
          images :=
            match item.screenshot with
            | some s => if s = "" then [] else [s]
            | none => []
          source := "firecrawl"
          score := item.score
          rawContent := item.content })

/-- Outcome of the enrichment completion call together with the
`JSON.parse` of its text: the call can throw, the returned text can fail to
parse (invalid JSON), or it parses to an object whose `results` field may be
absent (`enhanced.results || results`, an array being truthy even when empty). -/
inductive CompletionOutcome
  | throws (msg : String)
  | invalidJson
  | parsed (results : Option (List TrackerResult))
  deriving DecidableEq, Repr

/-- `TrackerEngine.enrichResults`: empty input short-circuits to `[]`; a
thrown call or unparsable reply falls back to the original list; a parsed
reply without a `results` array also falls back; otherwise the model's
array is used. -/
def enrichResults (comp : CompletionOutcome) (results : List TrackerResult) :
    List TrackerResult :=
  if results = [] then []
  else
    match comp with
    | .throws _ => results
    | .invalidJson => results
    | .parsed none => results
    | .parsed (some rs) => rs

/-- Environment of one `runTracker` call: the outcome of every external call
it makes.  `Except.error` marks a rejected `await` (the exception the
surrounding `try/catch` would receive); returned-but-ignored error objects of
the unchecked inserts and updates do not throw and so need no case. -/
structure RunEnv where
  now : Int
  runInsert : Except String Unit
  search : String → Except String (Option (List FcClientItem))
  completion : CompletionOutcome
  resultsInsert : Except String Unit
  runUpdate : Except String Unit
  trackerUpdate : Except String Unit

/-- Return shape of `TrackerEngine.runTracker`. -/
structure RunOutcome where
  success : Bool
  error : Option String
  results : List TrackerResult
  runId : Option Nat
  deriving Repr

/-- The query list of a tracker: `tracker.config?.queries || [tracker.prompt]`
(an absent list is falsy, a present empty list is truthy). -/
def queriesOf (tracker : TrackerRow) : List String :=
  match tracker.configQueries with
  | none => [tracker.prompt]
  | some qs => qs

/-- The `for (const query of queries)` collection loop of `runTracker`. -/
def collectedResults (env : RunEnv) (tracker : TrackerRow) : List TrackerResult :=
  (queriesOf tracker).foldl (fun acc q => acc ++ searchWithFirecrawl (env.search q)) []

/-- The rows `runTracker` inserts into `tracker_results`. -/
def resultRowsOf (runId trackerId : Nat) (rs : List TrackerResult) : List ResultRow :=
  rs.map (fun r =>
    { runId := runId, trackerId := trackerId, title := r.title,
      description := r.description, url := r.url, images := r.images,
      source := r.source, score := r.score })

/-- `TrackerEngine.runTracker`.  The run record is inserted directly with
status `running`; on the success path it is updated to `completed`; every
thrown error lands in the `catch`, which only logs and returns
`success: false` without touching the run record. -/
def runTracker (env : RunEnv) (db : Db) (trackerId : Nat) : RunOutcome × Db :=
  match db.trackers.find? (fun t => decide (t.id = trackerId)) with
  | none => ({ success := false, error := some "Tracker not found", results := [], runId := none }, db)
  | some tracker =>
    match env.runInsert with
    | .error e => ({ success := false, error := some e, results := [], runId := none }, db)
    | .ok _ =>
      let runId := db.nextRunId
      let run : RunRow :=
        { id := runId, trackerId := trackerId, status := .running,
          error := none, startedAt := env.now, completedAt := none }
      let db1 := { db with runs := db.runs ++ [run], nextRunId := db.nextRunId + 1 }
      let enriched := enrichResults env.completion (collectedResults env tracker)
      let insertOutcome : Except String Unit :=
        if enriched = [] then .ok () else env.resultsInsert
      match insertOutcome with
      | .error e => ({ success := false, error := some e, results := [], runId := none }, db1)
      | .ok _ =>
        let db2 :=
          if enriched = [] then db1
          else { db1 with results := db1.results ++ resultRowsOf runId trackerId enriched }
        match env.runUpdate with
        | .error e => ({ success := false, error := some e, results := [], runId := none }, db2)
        | .ok _ =>
          let db3 := { db2 with runs := db2.runs.map (fun r =>
            if r.id = runId then { r with status := .completed, completedAt := some env.now } else r) }
          match env.trackerUpdate with
          | .error e => ({ success := false, error := some e, results := [], runId := none }, db3)
          | .ok _ =>
            let db4 := { db3 with trackers := db3.trackers.map (fun t =>
              if t.id = trackerId then { t with lastRunAt := some env.now } else t) }
            ({ success := true, error := none, results := enriched, runId := some runId }, db4)

/-- The run-record row `runTracker` creates. -/
def createdRun (env : RunEnv) (db : Db) (trackerId : Nat) : RunRow :=
  { id := db.nextRunId, trackerId := trackerId, status := .running,
    error := none, startedAt := env.now, completedAt := none }

/-! ### TrackerEngine.createTracker, parsePrompt -/

/-- The structured configuration `parsePrompt` returns.  Every field is
optional because `JSON.parse` of an arbitrary model reply (or of the
`'{}'` default used when the content is null) may lack any of them. -/
structure ParsedConfig where
  name : Option String
  description : Option String
  sources : Option (List String)
  queries : Option (List String)
  deriving DecidableEq, Repr

/-- Outcome of the `parsePrompt` completion call: either some `await` or
`JSON.parse` threw (caught, triggering the fallback), or a parsed object. -/
inductive ParseOutcome
  | throws (msg : String)
  | parsed (p : ParsedConfig)
  deriving Repr

/-- The fallback configuration `parsePrompt` builds in its `catch`. -/
def fallbackParse (prompt : String) : ParsedConfig :=
  { name := some (jsTake prompt 50), description := some prompt,
    sources := some ["web"], queries := some [prompt] }

/-- `TrackerEngine.parsePrompt`: total thanks to its internal `try/catch`. -/
def parsePrompt (o : ParseOutcome) (prompt : String) : ParsedConfig :=
  match o with
  | .throws _ => fallbackParse prompt
  | .parsed p => p

/-- The `TrackerConfig` interface as the engine receives it. -/
structure EngineConfig where
  name : Option String
  prompt : String
  description : Option String
  isPublic : Option Bool
  deriving DecidableEq, Repr

/-- The row `createTracker` hands to `supabase.from('trackers').insert`:
`name: config.name || parsed.name`, `description: config.description ||
parsed.description`, `is_public: config.isPublic || true`. -/
def trackerRowOf (id : Nat) (now : Int) (config : EngineConfig) (parsed : ParsedConfig) :
    TrackerRow :=
  { id := id
    name := jsOrStr config.name parsed.name
    description := jsOrStr config.description parsed.description
    prompt := config.prompt
    configQueries := parsed.queries
    sources := parsed.sources
    isPublic := match config.isPublic with | some true => true | _ => true
    lastRunAt := none
    createdAt := now }

/-- Environment of one `createTracker` call. -/
structure CreateEnv where
  parse : ParseOutcome
  insert : Except String Unit

/-- Return shape of `TrackerEngine.createTracker`. -/
structure CreateOutcome where
  success : Bool
  error : Option String
  tracker : Option TrackerRow
  deriving Repr

/-- `TrackerEngine.createTracker`: parse the prompt (never throws), insert the
row (a null `name` violates the schema's NOT NULL constraint and surfaces as
an insert error), and report through the `success` flag. -/
def createTracker (env : CreateEnv) (now : Int) (db : Db) (config : EngineConfig) :
    CreateOutcome × Db :=
  let parsed := parsePrompt env.parse config.prompt
  let row := trackerRowOf db.nextTrackerId now config parsed
  let insertOutcome : Except String Unit :=
    if row.name = none then .error "null value in column name violates not-null constraint"
    else env.insert
  match insertOutcome with
  | .error e => ({ success := false, error := some e, tracker := none }, db)
  | .ok _ =>
    ({ success := true, error := none, tracker := some row },
     { db with trackers := db.trackers ++ [row], nextTrackerId := db.nextTrackerId + 1 })

/-! ### TrackerEngine.getTrackerWithResults, getPublicTrackers -/

/-- Comparator for ordering runs by `started_at` descending
(`.order('started_at', { ascending: false })`). -/
def startedDescGe (a b : RunRow) : Bool :=
  decide (b.startedAt ≤ a.startedAt)

/-- Descending order on optional scores; a SQL `ORDER BY score DESC` places
NULLs first. -/
def scoreDescGe (a b : ResultRow) : Bool :=
  match a.score, b.score with
  | none, _ => true
  | some _, none => false
  | some x, some y => decide (y ≤ x)

/-- Environment of one `getTrackerWithResults` call.  The first component of
each fetch is the thrown-rejection case; `ok false` models a query that
returns an error object (its `data` is null, and the code ignores the error,
treating the data as absent). -/
structure GetEnv where
  trackerFetch : Except String Unit
  runFetch : Except String Bool
  resultsFetch : Except String Bool

/-- Return shape of `TrackerEngine.getTrackerWithResults`. -/
structure GetOutcome where
  success : Bool
  error : Option String
  tracker : Option TrackerRow
  latestRun : Option RunRow
  results : List ResultRow
  deriving Repr

/-- `TrackerEngine.getTrackerWithResults`: fetch the tracker (an error
throws), then the latest run by `started_at` descending with **no status
filter** (an error object is ignored, leaving `latestRun` null), then that
run's results ordered by score descending (`runResults || []`). -/
def getTrackerWithResults (env : GetEnv) (db : Db) (trackerId : Nat) : GetOutcome :=
  match env.trackerFetch with
  | .error e => { success := false, error := some e, tracker := none, latestRun := none, results := [] }
  | .ok _ =>
    match db.trackers.find? (fun t => decide (t.id = trackerId)) with
    | none =>
      { success := false, error := some "no rows returned", tracker := none,
        latestRun := none, results := [] }
    | some tracker =>
      match env.runFetch with
      | .error e =>
        { success := false, error := some e, tracker := none, latestRun := none, results := [] }
      | .ok runData =>
        let latestRun :=
          if runData then
            (jsSort startedDescGe (db.runs.filter (fun r => decide (r.trackerId = trackerId)))).head?
          else none
        match latestRun with
        | none =>
          { success := true, error := none, tracker := some tracker,
            latestRun := none, results := [] }
        | some run =>
          match env.resultsFetch with
          | .error e =>
            { success := false, error := some e, tracker := none, latestRun := none, results := [] }
          | .ok resData =>
            let rows :=
              if resData then
                jsSort scoreDescGe (db.results.filter (fun res => decide (res.runId = run.id)))
              else []
            { success := true, error := none, tracker := some tracker,
              latestRun := some run, results := rows }

/-- The specification's definition of a tracker's latest results, written
from the spec's words for comparison with the code: the `TrackerResults` of
the **most recent completed** `TrackerRun`, ordered by score descending. -/
def specLatestResults (db : Db) (trackerId : Nat) : List ResultRow :=
  match (jsSort startedDescGe (db.runs.filter (fun r =>
      decide (r.trackerId = trackerId) && decide (r.status = RunStatus.completed)))).head? with
  | none => []
  | some run => jsSort scoreDescGe (db.results.filter (fun res => decide (res.runId = run.id)))

/-- Return shape of `TrackerEngine.getPublicTrackers`. -/
structure ListOutcome where
  success : Bool
  error : Option String
  trackers : List TrackerRow
  deriving Repr

/-- `TrackerEngine.getPublicTrackers`: public trackers, newest first, at most
20 (`.eq('is_public', true).order('created_at', { ascending: false }).limit(20)`). -/
def getPublicTrackers (outcome : Except String Unit) (db : Db) : ListOutcome :=
  match outcome with
  | .error e => { success := false, error := some e, trackers := [] }
  | .ok _ =>
    { success := true, error := none,
      trackers := (jsSort (fun a b => decide (b.createdAt ≤ a.createdAt))
        (db.trackers.filter (fun t => t.isPublic))).take 20 }

/-! ### POST /api/trackers (app/api/trackers/route.ts) -/

/-- The parsed JSON body of the request. -/
structure PostBody where
  prompt : Option String
  name : Option String
  description : Option String
  isPublic : Option Bool
  deriving DecidableEq, Repr

/-- Response of the route handler. -/
structure PostResponse where
  status : Nat
  error : Option String
  tracker : Option TrackerRow
  run : Option RunOutcome
  deriving Repr

/-- The `POST /api/trackers` handler: reject a falsy prompt with 400 before
touching the engine, otherwise create the tracker (passing
`isPublic: isPublic !== false`) and immediately run it.  A body that fails
`request.json()` is `none` and lands in the catch-all 500. -/
def postTrackers (cenv : CreateEnv) (renv : RunEnv) (now : Int) (db : Db)
    (body : Option PostBody) : PostResponse × Db :=
  match body with
  | none => ({ status := 500, error := some "Failed to create tracker", tracker := none, run := none }, db)
  | some b =>
    match b.prompt with
    | none => ({ status := 400, error := some "Prompt is required", tracker := none, run := none }, db)
    | some p =>
      if p = "" then
        ({ status := 400, error := some "Prompt is required", tracker := none, run := none }, db)
      else
        let created := createTracker cenv now db
          { name := b.name, prompt := p, description := b.description,
            isPublic := some (decide (b.isPublic ≠ some false)) }
        if created.1.success = false then
          ({ status := 500, error := created.1.error, tracker := none, run := none }, created.2)
        else
          match created.1.tracker with
          | none =>
            ({ status := 500, error := some "Failed to create tracker", tracker := none, run := none },
             created.2)
          | some t =>
            let ran := runTracker renv created.2 t.id
            ({ status := 200, error := none, tracker := some t, run := some ran.1 }, ran.2)

/-! ### Concrete instances used by counterexamples and witnesses -/

/-- An item whose `productName` is missing. -/
def c1Untitled : BeautyTrend :=
  { productName := none, platforms := ["TikTok"], mentions := some 5, images := ["a.jpg"] }

/-- A titled item. -/
def c1TitledA : BeautyTrend :=
  { productName := some "Glow Serum", platforms := ["TikTok"], mentions := some 3,
    images := ["x.jpg"] }

/-- A second item with the same normalized title as `c1TitledA`. -/
def c1TitledB : BeautyTrend :=
  { productName := some "glow serum", platforms := ["Instagram", "TikTok"], mentions := some 4,
    images := ["y.jpg", "x.jpg"] }

/-- A sample tracker row. -/
def demoTracker : TrackerRow :=
  { id := 1, name := some "Demo", description := none, prompt := "track demo",
    configQueries := some ["q1"], sources := some ["web"], isPublic := true,
    lastRunAt := none, createdAt := 0 }

/-- A database holding only `demoTracker`. -/
def demoDb : Db :=
  { trackers := [demoTracker], runs := [], results := [], nextTrackerId := 2, nextRunId := 7 }

/-- A raw search hit returned by the Firecrawl client. -/
def demoItem : FcClientItem :=
  { title := some "Hit", url := some "https://e.x/a", markdown := some "body",
    screenshot := some "s.png", score := some 2 }

/-- A run environment in which every external call succeeds. -/
def envRunOk : RunEnv :=
  { now := 100, runInsert := .ok (), search := fun _ => .ok (some [demoItem]),
    completion := .parsed none, resultsInsert := .ok (), runUpdate := .ok (),
    trackerUpdate := .ok () }

/-- Like `envRunOk`, but the final run-status update is rejected. -/
def envRunFailsUpdate : RunEnv :=
  { envRunOk with runUpdate := .error "network error" }

/-- Like `envRunOk`, but the enrichment completion returns invalid JSON. -/
def envRunInvalidJson : RunEnv :=
  { envRunOk with completion := .invalidJson }

/-- Like `envRunOk`, but every source search fails. -/
def envRunAllFail : RunEnv :=
  { envRunOk with search := fun _ => .error "timeout" }

/-- A ranked item that carries media but a low relevance score. -/
def rankItemA : RankItem :=
  { relevanceScore := some 0, media := some ["m.jpg"], publishedDate := some 0,
    enrichedAt := 0, source := none }

/-- A ranked item with no media but a higher relevance score. -/
def rankItemB : RankItem :=
  { relevanceScore := some 2, media := some [], publishedDate := some 0,
    enrichedAt := 0, source := none }

/-- An earlier, completed run of tracker 1 that produced a result. -/
def c7Run1 : RunRow :=
  { id := 1, trackerId := 1, status := .completed, error := none, startedAt := 0,
    completedAt := some 5 }

/-- A later, failed run of tracker 1 with no results. -/
def c7Run2 : RunRow :=
  { id := 2, trackerId := 1, status := .failed, error := some "boom", startedAt := 10,
    completedAt := none }

/-- The single result, belonging to the completed run `c7Run1`. -/
def c7Res1 : ResultRow :=
  { runId := 1, trackerId := 1, title := "A", description := none, url := some "https://e.x/a",
    images := [], source := "firecrawl", score := some 5 }

/-- Database with a completed older run (with one result) and a failed newer run. -/
def c7Db : Db :=
  { trackers := [demoTracker], runs := [c7Run1, c7Run2], results := [c7Res1],
    nextTrackerId := 2, nextRunId := 3 }

/-- A read environment in which every query succeeds with data. -/
def c7Env : GetEnv :=
  { trackerFetch := .ok (), runFetch := .ok true, resultsFetch := .ok true }

/-- A parsed configuration as the model might return it. -/
def parsedDemo : ParsedConfig :=
  { name := some "PN", description := some "PD", sources := some ["web"],
    queries := some ["q1"] }

/-- A parse environment whose completion reply parses cleanly. -/
def envCreateOk : CreateEnv :=
  { parse := .parsed parsedDemo, insert := .ok () }

/-- A creation request that explicitly asks for a private tracker. -/
def cfgPrivate : EngineConfig :=
  { name := some "N", prompt := "p", description := none, isPublic := some false }

/-- An empty database. -/
def dbEmpty : Db :=
  { trackers := [], runs := [], results := [], nextTrackerId := 0, nextRunId := 0 }

/-- The row `createTracker` inserts for `cfgPrivate` under `envCreateOk`. -/
def rowPrivate : TrackerRow :=
  trackerRowOf 0 0 cfgPrivate (parsePrompt envCreateOk.parse "p")

/-- A request body whose prompt is the empty string. -/
def bodyEmptyPrompt : PostBody :=
  { prompt := some "", name := some "N", description := none, isPublic := some true }

/-! ### Generic lemmas about the JavaScript-semantics helpers -/

theorem jsInsert_perm (ge : α → α → Bool) (x : α) (l : List α) :
    List.Perm (jsInsert ge x l) (x :: l) := by
  induction l with
  | nil => simp [jsInsert]
  | cons y ys ih =>
    simp only [jsInsert]
    split
    · exact (ih.cons y).trans (List.Perm.swap x y ys)
    · exact List.Perm.refl _

theorem jsSort_foldl_perm (ge : α → α → Bool) :
    ∀ (l acc : List α), List.Perm (l.foldl (fun acc x => jsInsert ge x acc) acc) (acc ++ l) := by
  intro l
  induction l with
  | nil => intro acc; simp
  | cons x xs ih =>
    intro acc
    have h1 : List.Perm (xs.foldl (fun acc x => jsInsert ge x acc) (jsInsert ge x acc))
        (jsInsert ge x acc ++ xs) := ih (jsInsert ge x acc)
    have h2 : List.Perm (jsInsert ge x acc ++ xs) ((x :: acc) ++ xs) :=
      (jsInsert_perm ge x acc).append_right xs
    have h3 : List.Perm ((x :: acc) ++ xs) (acc ++ x :: xs) := by
      simpa using List.perm_middle.symm
    simp only [List.foldl_cons]
    exact (h1.trans h2).trans h3

theorem jsSort_perm (ge : α → α → Bool) (l : List α) :
    List.Perm (jsSort ge l) l := by
  simpa [jsSort] using jsSort_foldl_perm ge l []

theorem jsInsert_pairwise (ge : α → α → Bool)
    (htot : ∀ a b, ge a b = true ∨ ge b a = true)
    (htrans : ∀ a b c, ge a b = true → ge b c = true → ge a c = true)
    (x : α) (l : List α) (h : l.Pairwise (fun a b => ge a b = true)) :
    (jsInsert ge x l).Pairwise (fun a b => ge a b = true) := by
  induction l with
  | nil => simp [jsInsert]
  | cons y ys ih =>
    rcases List.pairwise_cons.mp h with ⟨hy, hys⟩
    simp only [jsInsert]
    by_cases hge : ge y x = true
    · rw [if_pos hge]
      refine List.pairwise_cons.mpr ⟨?_, ih hys⟩
      intro b hb
      have hb' : b ∈ x :: ys := (jsInsert_perm ge x ys).mem_iff.mp hb
      rcases List.mem_cons.mp hb' with hbx | hbys
      · exact hbx ▸ hge
      · exact hy b hbys
    · rw [if_neg hge]
      have hxy : ge x y = true := (htot x y).resolve_right hge
      refine List.pairwise_cons.mpr ⟨?_, h⟩
      intro b hb
      rcases List.mem_cons.mp hb with hby | hbys
      · exact hby ▸ hxy
      · exact htrans x y b hxy (hy b hbys)

theorem jsSort_pairwise (ge : α → α → Bool)
    (htot : ∀ a b, ge a b = true ∨ ge b a = true)
    (htrans : ∀ a b c, ge a b = true → ge b c = true → ge a c = true)
    (l : List α) : (jsSort ge l).Pairwise (fun a b => ge a b = true) := by
  suffices h : ∀ (l acc : List α), acc.Pairwise (fun a b => ge a b = true) →
      (l.foldl (fun acc x => jsInsert ge x acc) acc).Pairwise (fun a b => ge a b = true) by
    exact h l [] (List.Pairwise.nil)
  intro l
  induction l with
  | nil => intro acc hacc; simpa using hacc
  | cons x xs ih =>
    intro acc hacc
    exact ih (jsInsert ge x acc) (jsInsert_pairwise ge htot htrans x acc hacc)

theorem mem_jsSetDedup_foldl :
    ∀ (l acc : List String) (x : String),
      x ∈ l.foldl (fun acc y => if y ∈ acc then acc else acc ++ [y]) acc ↔ x ∈ acc ∨ x ∈ l := by
  intro l
  induction l with
  | nil => intro acc x; simp
  | cons y ys ih =>
    intro acc x
    simp only [List.foldl_cons]
    by_cases hy : y ∈ acc
    · rw [if_pos hy, ih]
      constructor
      · rintro (hx | hx)
        · exact Or.inl hx
        · exact Or.inr (List.mem_cons_of_mem y hx)
      · rintro (hx | hx)
        · exact Or.inl hx
        · rcases List.mem_cons.mp hx with rfl | hx
          · exact Or.inl hy
          · exact Or.inr hx
    · rw [if_neg hy, ih]
      simp only [List.mem_append, List.mem_singleton, List.mem_cons]
      tauto

theorem mem_jsSetDedup (l : List String) (x : String) :
    x ∈ jsSetDedup l ↔ x ∈ l := by
  simpa [jsSetDedup] using mem_jsSetDedup_foldl l [] x

theorem nodup_jsSetDedup_foldl :
    ∀ (l acc : List String), acc.Nodup →
      (l.foldl (fun acc y => if y ∈ acc then acc else acc ++ [y]) acc).Nodup := by
  intro l
  induction l with
  | nil => intro acc h; simpa using h
  | cons y ys ih =>
    intro acc h
    simp only [List.foldl_cons]
    by_cases hy : y ∈ acc
    · rw [if_pos hy]; exact ih acc h
    · rw [if_neg hy]
      exact ih (acc ++ [y]) (by simp [List.nodup_append, h, hy])

theorem nodup_jsSetDedup (l : List String) : (jsSetDedup l).Nodup :=
  nodup_jsSetDedup_foldl l [] List.nodup_nil

theorem lookupKey_append (m : List (String × β)) (kv : String × β) (k : String) :
    lookupKey k (m ++ [kv]) =
      match lookupKey k m with
      | some v => some v
      | none => if kv.1 = k then some kv.2 else none := by
  induction m with
  | nil => simp [lookupKey]
  | cons hd rest ih =>
    by_cases h : hd.1 = k
    · simp [lookupKey, h]
    · simp [lookupKey, h, ih]

theorem lookupKey_some_mem {m : List (String × β)} {k : String} {v : β}
    (h : lookupKey k m = some v) : (k, v) ∈ m := by
  induction m with
  | nil => simp [lookupKey] at h
  | cons hd rest ih =>
    by_cases hk : hd.1 = k
    · simp only [lookupKey, if_pos hk] at h
      have : hd = (k, v) := by
        cases hd
        simp_all
      exact this ▸ List.mem_cons_self _ _
    · simp only [lookupKey, if_neg hk] at h
      exact List.mem_cons_of_mem hd (ih h)

theorem lookupKey_eq_none {m : List (String × β)} {k : String}
    (h : k ∉ m.map Prod.fst) : lookupKey k m = none := by
  induction m with
  | nil => rfl
  | cons hd rest ih =>
    simp only [List.map_cons, List.mem_cons, not_or] at h
    obtain ⟨h1, h2⟩ := h
    have h3 : ¬ hd.1 = k := fun he => h1 he.symm
    simp only [lookupKey, if_neg h3]
    exact ih h2

theorem mem_keys_exists_lookupKey {m : List (String × β)} {k : String}
    (h : k ∈ m.map Prod.fst) : ∃ v, lookupKey k m = some v := by
  induction m with
  | nil => simp at h
  | cons hd rest ih =>
    simp only [List.map_cons, List.mem_cons] at h
    by_cases hk : hd.1 = k
    · exact ⟨hd.2, by simp [lookupKey, hk]⟩
    · rcases h with h | h
      · exact absurd h.symm hk
      · rcases ih h with ⟨v, hv⟩
        exact ⟨v, by simp [lookupKey, hk, hv]⟩

/-! ### Lemmas about mergeTrends and mergeAndDedupe -/

theorem mergeTrends_productName (a b : BeautyTrend) :
    (mergeTrends a b).productName = a.productName := rfl

theorem effectiveKey_mergeTrends (a b : BeautyTrend) :
    effectiveKey (mergeTrends a b) = effectiveKey a := rfl

theorem mergeTrends_mentions (a b : BeautyTrend) :
    (mergeTrends a b).mentions.getD 0 = a.mentions.getD 0 + b.mentions.getD 0 := rfl

theorem mem_platforms_mergeTrends (a b : BeautyTrend) (p : String) :
    p ∈ (mergeTrends a b).platforms ↔ p ∈ a.platforms ∨ p ∈ b.platforms := by
  simp [mergeTrends, mem_jsSetDedup]

theorem mem_images_mergeTrends (a b : BeautyTrend) (u : String) :
    u ∈ (mergeTrends a b).images ↔ u ∈ a.images ∨ u ∈ b.images := by
  simp [mergeTrends, mem_jsSetDedup]

theorem nodup_platforms_mergeTrends (a b : BeautyTrend) :
    (mergeTrends a b).platforms.Nodup :=
  nodup_jsSetDedup _

theorem nodup_images_mergeTrends (a b : BeautyTrend) :
    (mergeTrends a b).images.Nodup :=
  nodup_jsSetDedup _

theorem foldl_mergeTrends_mentions :
    ∀ (gs : List BeautyTrend) (g : BeautyTrend),
      (gs.foldl mergeTrends g).mentions.getD 0 =
        g.mentions.getD 0 + (gs.map (fun i => i.mentions.getD 0)).sum := by
  intro gs
  induction gs with
  | nil => intro g; simp
  | cons x xs ih =>
    intro g
    simp only [List.foldl_cons, ih, mergeTrends_mentions, List.map_cons, List.sum_cons]
    omega

theorem foldl_mergeTrends_platforms :
    ∀ (gs : List BeautyTrend) (g : BeautyTrend) (p : String),
      p ∈ (gs.foldl mergeTrends g).platforms ↔
        p ∈ g.platforms ∨ ∃ i ∈ gs, p ∈ i.platforms := by
  intro gs
  induction gs with
  | nil => intro g p; simp
  | cons x xs ih =>
    intro g p
    simp only [List.foldl_cons, ih, mem_platforms_mergeTrends, List.mem_cons]
    constructor
    · rintro ((h | h) | ⟨i, hi, h⟩)
      · exact Or.inl h
      · exact Or.inr ⟨x, Or.inl rfl, h⟩
      · exact Or.inr ⟨i, Or.inr hi, h⟩
    · rintro (h | ⟨i, hi | hi, h⟩)
      · exact Or.inl (Or.inl h)
      · exact Or.inl (Or.inr (hi ▸ h))
      · exact Or.inr ⟨i, hi, h⟩

theorem foldl_mergeTrends_images :
    ∀ (gs : List BeautyTrend) (g : BeautyTrend) (u : String),
      u ∈ (gs.foldl mergeTrends g).images ↔
        u ∈ g.images ∨ ∃ i ∈ gs, u ∈ i.images := by
  intro gs
  induction gs with
  | nil => intro g u; simp
  | cons x xs ih =>
    intro g u
    simp only [List.foldl_cons, ih, mem_images_mergeTrends, List.mem_cons]
    constructor
    · rintro ((h | h) | ⟨i, hi, h⟩)
      · exact Or.inl h
      · exact Or.inr ⟨x, Or.inl rfl, h⟩
      · exact Or.inr ⟨i, Or.inr hi, h⟩
    · rintro (h | ⟨i, hi | hi, h⟩)
      · exact Or.inl (Or.inl h)
      · exact Or.inl (Or.inr (hi ▸ h))
      · exact Or.inr ⟨i, hi, h⟩

theorem foldl_mergeTrends_nodup_platforms :
    ∀ (gs : List BeautyTrend) (g : BeautyTrend), g.platforms.Nodup →
      (gs.foldl mergeTrends g).platforms.Nodup := by
  intro gs
  induction gs with
  | nil => intro g h; simpa using h
  | cons x xs ih =>
    intro g _
    simp only [List.foldl_cons]
    exact ih (mergeTrends g x) (nodup_platforms_mergeTrends g x)

theorem foldl_mergeTrends_nodup_images :
    ∀ (gs : List BeautyTrend) (g : BeautyTrend), g.images.Nodup →
      (gs.foldl mergeTrends g).images.Nodup := by
  intro gs
  induction gs with
  | nil => intro g h; simpa using h
  | cons x xs ih =>
    intro g _
    simp only [List.foldl_cons]
    exact ih (mergeTrends g x) (nodup_images_mergeTrends g x)

theorem foldl_mergeTrends_effectiveKey :
    ∀ (gs : List BeautyTrend) (g : BeautyTrend),
      effectiveKey (gs.foldl mergeTrends g) = effectiveKey g := by
  intro gs
  induction gs with
  | nil => intro g; rfl
  | cons x xs ih =>
    intro g
    simp only [List.foldl_cons, ih, effectiveKey_mergeTrends]

theorem lookupKey_update (key : String) (item : BeautyTrend) :
    ∀ (m : List (String × BeautyTrend)) (k : String),
      lookupKey k (m.map (fun kv => if kv.1 = key then (key, mergeTrends kv.2 item) else kv)) =
        if key = k then (lookupKey k m).map (fun v => mergeTrends v item)
        else lookupKey k m := by
  intro m
  induction m with
  | nil => intro k; by_cases h : key = k <;> simp [lookupKey, h]
  | cons hd rest ih =>
    intro k
    by_cases h1 : hd.1 = key
    · by_cases h2 : key = k
      · subst h2
        simp [lookupKey, h1]
      · have h4 : ¬ hd.1 = k := by rw [h1]; exact h2
        simp [lookupKey, h1, h2, h4, ih]
    · by_cases h2 : hd.1 = k
      · have h3 : ¬ key = k := fun he => h1 (by rw [he, h2])
        have h5 : ¬ k = key := fun he => h3 he.symm
        simp [lookupKey, h1, h2, h3, h5]
      · simp [lookupKey, h1, h2, ih]

theorem lookupKey_foldl_dedupe :
    ∀ (items : List BeautyTrend) (m : List (String × BeautyTrend)) (k : String),
      lookupKey k (items.foldl dedupeStep m) =
        match lookupKey k m with
        | some v => some ((groupOf k items).foldl mergeTrends v)
        | none =>
          match groupOf k items with
          | [] => none
          | g :: gs => some (gs.foldl mergeTrends g) := by
  intro items
  induction items with
  | nil =>
    intro m k
    cases h : lookupKey k m <;> simp [groupOf, h]
  | cons i rest ih =>
    intro m k
    simp only [List.foldl_cons]
    rw [ih (dedupeStep m i) k]
    cases hk : effectiveKey i with
    | none =>
      have hstep : dedupeStep m i = m := by simp [dedupeStep, hk]
      have hgrp : groupOf k (i :: rest) = groupOf k rest := by
        simp [groupOf, List.filter_cons, hk]
      rw [hstep, hgrp]
    | some k2 =>
      by_cases hkk : k2 = k
      · subst hkk
        have hgrp : groupOf k2 (i :: rest) = i :: groupOf k2 rest := by
          simp [groupOf, List.filter_cons, hk]
        cases hm : lookupKey k2 m with
        | some v =>
          have hstep : dedupeStep m i =
              m.map (fun kv => if kv.1 = k2 then (k2, mergeTrends kv.2 i) else kv) := by
            simp [dedupeStep, hk, hm]
          rw [hstep, lookupKey_update k2 i m k2, if_pos rfl, hm, hgrp]
          simp
        | none =>
          have hstep : dedupeStep m i = m ++ [(k2, i)] := by simp [dedupeStep, hk, hm]
          rw [hstep, lookupKey_append, hm, hgrp]
          simp
      · have hgrp : groupOf k (i :: rest) = groupOf k rest := by
          simp [groupOf, List.filter_cons, hk, hkk]
        have hlk : lookupKey k (dedupeStep m i) = lookupKey k m := by
          cases hm : lookupKey k2 m with
          | some v =>
            simp [dedupeStep, hk, hm, lookupKey_update, hkk]
          | none =>
            have hstep : dedupeStep m i = m ++ [(k2, i)] := by simp [dedupeStep, hk, hm]
            rw [hstep, lookupKey_append]
            cases hlkm : lookupKey k m <;> simp [hkk]
        rw [hlk, hgrp]

theorem goodMap_dedupeStep (m : List (String × BeautyTrend)) (i : BeautyTrend)
    (h : goodMap m) : goodMap (dedupeStep m i) := by
  obtain ⟨hnd, hco⟩ := h
  cases hk : effectiveKey i with
  | none =>
    have hstep : dedupeStep m i = m := by simp [dedupeStep, hk]
    rw [hstep]
    exact ⟨hnd, hco⟩
  | some key =>
    cases hm : lookupKey key m with
    | some v =>
      simp only [dedupeStep, hk, hm]
      constructor
      · have heq : (m.map (fun kv => if kv.1 = key then (key, mergeTrends kv.2 i) else kv)).map
            Prod.fst = m.map Prod.fst := by
          rw [List.map_map]
          apply List.map_congr_left
          intro kv _
          by_cases hkv : kv.1 = key <;> simp [hkv]
        rw [heq]
        exact hnd
      · intro kv hkv
        rcases List.mem_map.mp hkv with ⟨kv0, hkv0, rfl⟩
        by_cases he : kv0.1 = key
        · rw [if_pos he]
          show effectiveKey (mergeTrends kv0.2 i) = some key
          rw [effectiveKey_mergeTrends, hco kv0 hkv0, he]
        · rw [if_neg he]
          exact hco kv0 hkv0
    | none =>
      simp only [dedupeStep, hk, hm]
      constructor
      · have hknotin : key ∉ m.map Prod.fst := by
          intro hmem
          rcases mem_keys_exists_lookupKey hmem with ⟨v, hv⟩
          rw [hv] at hm
          exact Option.noConfusion hm
        simp only [List.map_append, List.map_cons, List.map_nil]
        rw [List.nodup_append]
        refine ⟨hnd, List.nodup_singleton key, ?_⟩
        intro a ha hb
        rcases List.mem_singleton.mp hb with rfl
        exact hknotin ha
      · intro kv hkv
        rcases List.mem_append.mp hkv with h1 | h1
        · exact hco kv h1
        · rcases List.mem_singleton.mp h1 with rfl
          simpa using hk

theorem goodMap_foldl :
    ∀ (items : List BeautyTrend) (m : List (String × BeautyTrend)),
      goodMap m → goodMap (items.foldl dedupeStep m) := by
  intro items
  induction items with
  | nil => intro m h; simpa using h
  | cons i rest ih =>
    intro m h
    simp only [List.foldl_cons]
    exact ih (dedupeStep m i) (goodMap_dedupeStep m i h)

theorem filter_values_eq_lookupKey (k : String) :
    ∀ (m : List (String × BeautyTrend)), goodMap m →
      (m.map Prod.snd).filter (fun o => decide (effectiveKey o = some k)) =
        match lookupKey k m with
        | some v => [v]
        | none => [] := by
  intro m
  induction m with
  | nil => intro _; simp [lookupKey]
  | cons kv rest ih =>
    intro h
    obtain ⟨hnd, hco⟩ := h
    have hkey : effectiveKey kv.2 = some kv.1 := hco kv (List.mem_cons_self _ _)
    have hnd2 : (kv.1 :: rest.map Prod.fst).Nodup := by
      rw [List.map_cons] at hnd
      exact hnd
    have hnotin : kv.1 ∉ rest.map Prod.fst := (List.nodup_cons.mp hnd2).1
    have hrest : goodMap rest :=
      ⟨(List.nodup_cons.mp hnd2).2, fun kv2 h2 => hco kv2 (List.mem_cons_of_mem _ h2)⟩
    simp only [List.map_cons, List.filter_cons]
    by_cases hk : kv.1 = k
    · subst hk
      have hnone : lookupKey kv.1 rest = none := lookupKey_eq_none hnotin
      rw [ih hrest, hnone]
      simp [lookupKey, hkey]
    · have hfalse : decide (effectiveKey kv.2 = some k) = false := by
        simp [hkey, hk]
      rw [ih hrest]
      simp [lookupKey, hfalse, hk]

theorem mergeAndDedupe_filter_key (items : List BeautyTrend) (k : String) :
    (mergeAndDedupe items).filter (fun o => decide (effectiveKey o = some k)) =
      match groupOf k items with
      | [] => []
      | g :: gs => [gs.foldl mergeTrends g] := by
  have hgm : goodMap (items.foldl dedupeStep []) :=
    goodMap_foldl items [] ⟨List.nodup_nil, by simp⟩
  have hlk := lookupKey_foldl_dedupe items [] k
  simp only [lookupKey] at hlk
  rw [mergeAndDedupe, filter_values_eq_lookupKey k _ hgm, hlk]
  cases groupOf k items <;> simp

/-! ### Lemmas about deduplicateResults -/

theorem map_fst_updateFirst (hash : String) (r : RawResult) :
    ∀ (m : List (String × RawResult)),
      (updateFirst hash r m).map Prod.fst = m.map Prod.fst := by
  intro m
  induction m with
  | nil => rfl
  | cons kv rest ih =>
    by_cases h : kv.1 = hash
    · simp [updateFirst, h]
    · simp [updateFirst, h, ih]

theorem mem_keys_dedupStep (h : String → String) (m : List (String × RawResult))
    (r : RawResult) (k : String) (hk : k ∈ m.map Prod.fst) :
    k ∈ (dedupStep h m r).map Prod.fst := by
  cases hm : lookupKey (h (contentToHash r)) m with
  | some v =>
    simp only [dedupStep, hm]
    rw [map_fst_updateFirst]
    exact hk
  | none =>
    simp only [dedupStep, hm, List.map_append]
    exact List.mem_append_left _ hk

theorem self_key_dedupStep (h : String → String) (m : List (String × RawResult))
    (r : RawResult) : h (contentToHash r) ∈ (dedupStep h m r).map Prod.fst := by
  cases hm : lookupKey (h (contentToHash r)) m with
  | some v =>
    simp only [dedupStep, hm]
    rw [map_fst_updateFirst]
    exact List.mem_map.mpr ⟨(h (contentToHash r), v), lookupKey_some_mem hm, rfl⟩
  | none =>
    simp only [dedupStep, hm, List.map_append, List.map_cons, List.map_nil]
    exact List.mem_append_right _ (List.mem_singleton.mpr rfl)

theorem keys_foldl_dedupStep_mono (h : String → String) :
    ∀ (results : List RawResult) (m : List (String × RawResult)) (k : String),
      k ∈ m.map Prod.fst → k ∈ (results.foldl (dedupStep h) m).map Prod.fst := by
  intro results
  induction results with
  | nil => intro m k hk; simpa using hk
  | cons r rest ih =>
    intro m k hk
    simp only [List.foldl_cons]
    exact ih (dedupStep h m r) k (mem_keys_dedupStep h m r k hk)

theorem processed_key_mem (h : String → String) :
    ∀ (results : List RawResult) (m : List (String × RawResult)) (r : RawResult),
      r ∈ results → h (contentToHash r) ∈ (results.foldl (dedupStep h) m).map Prod.fst := by
  intro results
  induction results with
  | nil => intro m r hr; simp at hr
  | cons r0 rest ih =>
    intro m r hr
    simp only [List.foldl_cons]
    rcases List.mem_cons.mp hr with rfl | hr
    · exact keys_foldl_dedupStep_mono h rest (dedupStep h m r) _
        (self_key_dedupStep h m r)
    · exact ih (dedupStep h m r0) r hr

/-! ### Lemmas about the engine -/

theorem enrichResults_invalidJson (l : List TrackerResult) :
    enrichResults CompletionOutcome.invalidJson l = l := by
  by_cases h : l = [] <;> simp [enrichResults, h]

theorem searchWithFirecrawl_error (msg : String) :
    searchWithFirecrawl (Except.error msg) = [] := rfl

theorem collectedResults_of_all_fail (env : RunEnv) (tracker : TrackerRow)
    (hfail : ∀ q, ∃ msg, env.search q = Except.error msg) :
    collectedResults env tracker = [] := by
  have hgen : ∀ (qs : List String) (acc : List TrackerResult), acc = [] →
      qs.foldl (fun acc q => acc ++ searchWithFirecrawl (env.search q)) acc = [] := by
    intro qs
    induction qs with
    | nil => intro acc h; simpa using h
    | cons q rest ih =>
      intro acc h
      rcases hfail q with ⟨msg, hmsg⟩
      simp only [List.foldl_cons]
      exact ih _ (by simp [h, hmsg, searchWithFirecrawl_error])
  exact hgen (queriesOf tracker) [] rfl

theorem runTracker_success_path (env : RunEnv) (db : Db) (trackerId : Nat)
    (tracker : TrackerRow)
    (hfind : db.trackers.find? (fun t => decide (t.id = trackerId)) = some tracker)
    (hins : env.runInsert = .ok ())
    (hres : enrichResults env.completion (collectedResults env tracker) = [] ∨
      env.resultsInsert = .ok ())
    (hupd : env.runUpdate = .ok ()) (htr : env.trackerUpdate = .ok ()) :
    (runTracker env db trackerId).1.success = true ∧
    (runTracker env db trackerId).1.results =
      enrichResults env.completion (collectedResults env tracker) ∧
    (runTracker env db trackerId).1.runId = some db.nextRunId ∧
    (runTracker env db trackerId).2.runs =
      (db.runs ++ [createdRun env db trackerId]).map (fun r =>
        if r.id = db.nextRunId then { r with status := .completed, completedAt := some env.now }
        else r) ∧
    (runTracker env db trackerId).2.results =
      db.results ++ resultRowsOf db.nextRunId trackerId
        (enrichResults env.completion (collectedResults env tracker)) := by
  simp only [runTracker, hfind, hins]
  by_cases hemp : enrichResults env.completion (collectedResults env tracker) = []
  · simp [hemp, hupd, htr, createdRun, resultRowsOf]
  · have hres2 : env.resultsInsert = .ok () := hres.resolve_left hemp
    simp [hemp, hres2, hupd, htr, createdRun]

theorem runTracker_success_completed_run (env : RunEnv) (db : Db) (trackerId : Nat)
    (tracker : TrackerRow)
    (hfind : db.trackers.find? (fun t => decide (t.id = trackerId)) = some tracker)
    (hins : env.runInsert = .ok ())
    (hres : enrichResults env.completion (collectedResults env tracker) = [] ∨
      env.resultsInsert = .ok ())
    (hupd : env.runUpdate = .ok ()) (htr : env.trackerUpdate = .ok ()) :
    ∃ r ∈ (runTracker env db trackerId).2.runs,
      r.id = db.nextRunId ∧ r.status = RunStatus.completed := by
  obtain ⟨-, -, -, hruns, -⟩ :=
    runTracker_success_path env db trackerId tracker hfind hins hres hupd htr
  refine ⟨{ createdRun env db trackerId with
      status := .completed, completedAt := some env.now }, ?_, rfl, rfl⟩
  rw [hruns]
  refine List.mem_map.mpr ⟨createdRun env db trackerId, ?_, ?_⟩
  · exact List.mem_append_right _ (List.mem_singleton.mpr rfl)
  · simp [createdRun]

/-! ### Comparator facts -/

theorem startedDescGe_total (a b : RunRow) :
    startedDescGe a b = true ∨ startedDescGe b a = true := by
  unfold startedDescGe
  rcases le_total b.startedAt a.startedAt with h | h
  · exact Or.inl (decide_eq_true h)
  · exact Or.inr (decide_eq_true h)

theorem startedDescGe_trans (a b c : RunRow) (h1 : startedDescGe a b = true)
    (h2 : startedDescGe b c = true) : startedDescGe a c = true := by
  unfold startedDescGe at h1 h2 ⊢
  exact decide_eq_true (le_trans (of_decide_eq_true h2) (of_decide_eq_true h1))

theorem scoreDescGe_total (a b : ResultRow) :
    scoreDescGe a b = true ∨ scoreDescGe b a = true := by
  unfold scoreDescGe
  cases ha : a.score with
  | none => exact Or.inl rfl
  | some x =>
    cases hb : b.score with
    | none => exact Or.inr rfl
    | some y =>
      rcases le_total y x with h | h
      · exact Or.inl (decide_eq_true h)
      · exact Or.inr (decide_eq_true h)

theorem scoreDescGe_trans (a b c : ResultRow) (h1 : scoreDescGe a b = true)
    (h2 : scoreDescGe b c = true) : scoreDescGe a c = true := by
  unfold scoreDescGe at h1 h2 ⊢
  cases ha : a.score with
  | none => rfl
  | some x =>
    cases hb : b.score with
    | none =>
      rw [ha, hb] at h1
      exact absurd h1 (by simp)
    | some y =>
      cases hc : c.score with
      | none =>
        rw [hb, hc] at h2
        exact absurd h2 (by simp)
      | some z =>
        rw [ha, hb] at h1
        rw [hb, hc] at h2
        exact decide_eq_true (le_trans (of_decide_eq_true h2) (of_decide_eq_true h1))

theorem rankGe_total (now : Int) (a b : RankItem) :
    decide (itemScore now b ≤ itemScore now a) = true ∨
    decide (itemScore now a ≤ itemScore now b) = true := by
  rcases le_total (itemScore now b) (itemScore now a) with h | h
  · exact Or.inl (decide_eq_true h)
  · exact Or.inr (decide_eq_true h)

theorem rankGe_trans (now : Int) (a b c : RankItem)
    (h1 : decide (itemScore now b ≤ itemScore now a) = true)
    (h2 : decide (itemScore now c ≤ itemScore now b) = true) :
    decide (itemScore now c ≤ itemScore now a) = true :=
  decide_eq_true (le_trans (of_decide_eq_true h2) (of_decide_eq_true h1))

/-! ### Stability of the modelled JavaScript sort

For a comparator induced by a key function, the stable sort keeps elements
with equal keys in input order: filtering the sorted list down to any one
key value yields exactly the same-ordered filtering of the input. -/

theorem keyGe_total {K : Type} [LinearOrder K] (f : α → K) (a b : α) :
    decide (f b ≤ f a) = true ∨ decide (f a ≤ f b) = true := by
  rcases le_total (f b) (f a) with h | h
  · exact Or.inl (decide_eq_true h)
  · exact Or.inr (decide_eq_true h)

theorem keyGe_trans {K : Type} [LinearOrder K] (f : α → K) (a b c : α)
    (h1 : decide (f b ≤ f a) = true) (h2 : decide (f c ≤ f b) = true) :
    decide (f c ≤ f a) = true :=
  decide_eq_true (le_trans (of_decide_eq_true h2) (of_decide_eq_true h1))

theorem filter_key_eq_nil_of_lt {K : Type} [LinearOrder K] (f : α → K) (s : K)
    (l : List α) (h : ∀ a ∈ l, f a < s) :
    l.filter (fun a => decide (f a = s)) = [] := by
  induction l with
  | nil => rfl
  | cons y ys ih =>
    have hy : ¬ f y = s := ne_of_lt (h y (List.mem_cons_self y ys))
    simp only [List.filter_cons, hy]
    simpa using ih (fun a ha => h a (List.mem_cons_of_mem y ha))

theorem jsInsert_filter_stable {K : Type} [LinearOrder K] (f : α → K) (x : α) (s : K) :
    ∀ acc : List α, acc.Pairwise (fun a b => decide (f b ≤ f a) = true) →
      (jsInsert (fun a b => decide (f b ≤ f a)) x acc).filter (fun a => decide (f a = s)) =
        acc.filter (fun a => decide (f a = s)) ++ if f x = s then [x] else [] := by
  intro acc
  induction acc with
  | nil =>
    intro _
    by_cases h : f x = s <;> simp [jsInsert, h]
  | cons y ys ih =>
    intro hs
    rcases List.pairwise_cons.mp hs with ⟨hy, hys⟩
    simp only [jsInsert]
    by_cases hge : decide (f x ≤ f y) = true
    · rw [if_pos hge]
      simp only [List.filter_cons]
      rw [ih hys]
      by_cases hyy : f y = s <;> simp [hyy]
    · rw [if_neg hge]
      have hlt : f y < f x := not_le.mp (fun hc => hge (decide_eq_true hc))
      by_cases hxx : f x = s
      · have hnil : (y :: ys).filter (fun a => decide (f a = s)) = [] := by
          apply filter_key_eq_nil_of_lt
          intro a ha
          rcases List.mem_cons.mp ha with rfl | ha
          · exact hxx ▸ hlt
          · exact lt_of_le_of_lt (of_decide_eq_true (hy a ha)) (hxx ▸ hlt)
        simp [List.filter_cons, hxx, hnil]
      · simp [List.filter_cons, hxx]

theorem jsSort_filter_stable_foldl {K : Type} [LinearOrder K] (f : α → K) (s : K) :
    ∀ (l acc : List α), acc.Pairwise (fun a b => decide (f b ≤ f a) = true) →
      (l.foldl (fun acc x => jsInsert (fun a b => decide (f b ≤ f a)) x acc) acc).filter
          (fun a => decide (f a = s)) =
        acc.filter (fun a => decide (f a = s)) ++ l.filter (fun a => decide (f a = s)) := by
  intro l
  induction l with
  | nil => intro acc _; simp
  | cons x xs ih =>
    intro acc hacc
    simp only [List.foldl_cons]
    have hins := jsInsert_pairwise (fun a b => decide (f b ≤ f a))
      (fun a b => keyGe_total f a b) (fun a b c => keyGe_trans f a b c) x acc hacc
    rw [ih _ hins, jsInsert_filter_stable f x s acc hacc, List.filter_cons]
    by_cases hxx : f x = s <;> simp [hxx]

theorem jsSort_filter_stable {K : Type} [LinearOrder K] (f : α → K) (s : K) (l : List α) :
    (jsSort (fun a b => decide (f b ≤ f a)) l).filter (fun a => decide (f a = s)) =
      l.filter (fun a => decide (f a = s)) := by
  have h := jsSort_filter_stable_foldl f s l [] List.Pairwise.nil
  simpa [jsSort] using h

/-! ### The possible shapes of a runTracker execution -/

theorem runTracker_run_cases (env : RunEnv) (db : Db) (tid : Nat) :
    ((runTracker env db tid).2.runs = db.runs ∧ (runTracker env db tid).1.success = false) ∨
    ((runTracker env db tid).2.runs = db.runs ++ [createdRun env db tid] ∧
      (runTracker env db tid).1.success = false) ∨
    (runTracker env db tid).2.runs =
      (db.runs ++ [createdRun env db tid]).map (fun r =>
        if r.id = db.nextRunId then { r with status := .completed, completedAt := some env.now }
        else r) := by
  simp only [runTracker]
  cases hfind : db.trackers.find? (fun t => decide (t.id = tid)) with
  | none => exact Or.inl ⟨rfl, rfl⟩
  | some tracker =>
    cases hins : env.runInsert with
    | error e => exact Or.inl ⟨rfl, rfl⟩
    | ok u =>
      by_cases hemp : enrichResults env.completion (collectedResults env tracker) = []
      · simp only [hemp, if_pos]
        cases hupd : env.runUpdate with
        | error e => exact Or.inr (Or.inl ⟨rfl, rfl⟩)
        | ok u2 =>
          cases htr : env.trackerUpdate with
          | error e => exact Or.inr (Or.inr rfl)
          | ok u3 => exact Or.inr (Or.inr rfl)
      · simp only [hemp, if_neg]
        cases hres : env.resultsInsert with
        | error e => exact Or.inr (Or.inl ⟨rfl, rfl⟩)
        | ok u1 =>
          cases hupd : env.runUpdate with
          | error e => exact Or.inr (Or.inl ⟨rfl, rfl⟩)
          | ok u2 =>
            cases htr : env.trackerUpdate with
            | error e => exact Or.inr (Or.inr rfl)
            | ok u3 => exact Or.inr (Or.inr rfl)

theorem foldl_dedupe_skip_untitled :
    ∀ (items : List BeautyTrend) (m : List (String × BeautyTrend)),
      items.foldl dedupeStep m =
        (items.filter (fun i => (effectiveKey i).isSome)).foldl dedupeStep m := by
  intro items
  induction items with
  | nil => intro m; rfl
  | cons i rest ih =>
    intro m
    cases hk : effectiveKey i with
    | none =>
      have hstep : dedupeStep m i = m := by simp [dedupeStep, hk]
      simp only [List.foldl_cons, List.filter_cons, hk, Option.isSome_none, hstep]
      exact ih m
    | some k =>
      simp only [List.foldl_cons, List.filter_cons, hk, Option.isSome_some]
      exact ih (dedupeStep m i)

/-! ### Claim theorems -/

/-- C1 (counterexample).  The claim states that an item with a missing title
is treated as always-unique and passes through deduplication unmerged.  In
`mergeAndDedupe`, however, `if (!item.productName) return;` skips such an
item entirely: it is never added to the product map, so it is removed from
the output.  Here a one-item input with a missing title produces an empty
output. -/
theorem c1_dedup_drops_untitled_counterexample :
    mergeAndDedupe [c1Untitled] = [] := by decide

/-- C1 (amended).  Deduplication never removes an item **that has a
non-empty title**: every such input item appears in `mergeAndDedupe`'s output
merged into the single representative of its normalized-title key; items with
missing (or empty) titles are dropped by `mergeAndDedupe` — the output is
exactly that of the titled sub-list — rather than passed through.  In
`ResultProcessor.deduplicateResults` (the other deduplicator), no input item
is ever removed: for every hash function, each input's content-hash class is
represented in the output. -/
theorem c1_dedup_no_removal_amended :
    (∀ (items : List BeautyTrend) (i : BeautyTrend) (k : String),
        i ∈ items → effectiveKey i = some k →
        ∃ o ∈ mergeAndDedupe items, effectiveKey o = some k) ∧
    (∀ items : List BeautyTrend,
        mergeAndDedupe items =
          mergeAndDedupe (items.filter (fun i => (effectiveKey i).isSome))) ∧
    (∀ (h : String → String) (results : List RawResult) (r : RawResult),
        r ∈ results →
        ∃ kv ∈ dedupFold h results, kv.1 = h (contentToHash r) ∧
          kv.2 ∈ deduplicateResults h results) := by
  refine ⟨?_, ?_, ?_⟩
  · intro items i k hi hk
    cases hgrp : groupOf k items with
    | nil =>
      have hmem : i ∈ groupOf k items :=
        List.mem_filter.mpr ⟨hi, by simp [hk]⟩
      rw [hgrp] at hmem
      simp at hmem
    | cons g gs =>
      have hfilter := mergeAndDedupe_filter_key items k
      rw [hgrp] at hfilter
      have hmem : gs.foldl mergeTrends g ∈
          (mergeAndDedupe items).filter (fun x => decide (effectiveKey x = some k)) := by
        rw [hfilter]
        exact List.mem_singleton.mpr rfl
      have h2 := List.mem_filter.mp hmem
      exact ⟨gs.foldl mergeTrends g, h2.1, of_decide_eq_true h2.2⟩
  · intro items
    unfold mergeAndDedupe
    rw [foldl_dedupe_skip_untitled items []]
  · intro h results r hr
    have hkey := processed_key_mem h results [] r hr
    rcases List.mem_map.mp hkey with ⟨kv, hkv, heq⟩
    exact ⟨kv, hkv, heq, List.mem_map.mpr ⟨kv, hkv, rfl⟩⟩

/-- C1 (witness): the amended theorem applied to a concrete three-item list
whose two titled items share a normalized title. -/
theorem c1_dedup_no_removal_witness :
    ∃ o ∈ mergeAndDedupe [c1TitledA, c1Untitled, c1TitledB],
      effectiveKey o = some "glow serum" :=
  c1_dedup_no_removal_amended.1 [c1TitledA, c1Untitled, c1TitledB] c1TitledA
    "glow serum" (by decide) (by decide)

/-- C4.  All input items sharing a non-empty normalized title are merged by
`mergeAndDedupe` into exactly one output item: its platform list contains a
platform exactly when some item of the group does (and is duplicate-free as
soon as a merge actually happened), its image list likewise unions the
groups' images, and its mentions counter is the sum of the group's mentions. -/
theorem c4_merge_groups (items : List BeautyTrend) (k : String)
    (hne : groupOf k items ≠ []) :
    ∃ o, (mergeAndDedupe items).filter (fun x => decide (effectiveKey x = some k)) = [o] ∧
      o.mentions.getD 0 = ((groupOf k items).map (fun i => i.mentions.getD 0)).sum ∧
      (∀ p, p ∈ o.platforms ↔ ∃ i ∈ groupOf k items, p ∈ i.platforms) ∧
      (∀ u, u ∈ o.images ↔ ∃ i ∈ groupOf k items, u ∈ i.images) ∧
      (2 ≤ (groupOf k items).length → o.platforms.Nodup ∧ o.images.Nodup) := by
  cases hgrp : groupOf k items with
  | nil => exact absurd hgrp hne
  | cons g gs =>
    refine ⟨gs.foldl mergeTrends g, ?_, ?_, ?_, ?_, ?_⟩
    · rw [mergeAndDedupe_filter_key items k, hgrp]
    · rw [foldl_mergeTrends_mentions, List.map_cons, List.sum_cons]
    · intro p
      rw [foldl_mergeTrends_platforms]
      constructor
      · rintro (h | ⟨i, hi, h⟩)
        · exact ⟨g, List.mem_cons_self g gs, h⟩
        · exact ⟨i, List.mem_cons_of_mem g hi, h⟩
      · rintro ⟨i, hi, h⟩
        rcases List.mem_cons.mp hi with rfl | hi
        · exact Or.inl h
        · exact Or.inr ⟨i, hi, h⟩
    · intro u
      rw [foldl_mergeTrends_images]
      constructor
      · rintro (h | ⟨i, hi, h⟩)
        · exact ⟨g, List.mem_cons_self g gs, h⟩
        · exact ⟨i, List.mem_cons_of_mem g hi, h⟩
      · rintro ⟨i, hi, h⟩
        rcases List.mem_cons.mp hi with rfl | hi
        · exact Or.inl h
        · exact Or.inr ⟨i, hi, h⟩
    · intro hlen
      cases gs with
      | nil => simp at hlen
      | cons g1 gs1 =>
        simp only [List.foldl_cons]
        exact ⟨foldl_mergeTrends_nodup_platforms gs1 (mergeTrends g g1)
            (nodup_platforms_mergeTrends g g1),
          foldl_mergeTrends_nodup_images gs1 (mergeTrends g g1)
            (nodup_images_mergeTrends g g1)⟩

/-- C4 (witness): the merge theorem applied to a concrete list in which two
items share the normalized title "glow serum". -/
theorem c4_merge_groups_witness :
    ∃ o, (mergeAndDedupe [c1TitledA, c1Untitled, c1TitledB]).filter
        (fun x => decide (effectiveKey x = some "glow serum")) = [o] ∧
      o.mentions.getD 0 =
        ((groupOf "glow serum" [c1TitledA, c1Untitled, c1TitledB]).map
          (fun i => i.mentions.getD 0)).sum ∧
      (∀ p, p ∈ o.platforms ↔
        ∃ i ∈ groupOf "glow serum" [c1TitledA, c1Untitled, c1TitledB], p ∈ i.platforms) ∧
      (∀ u, u ∈ o.images ↔
        ∃ i ∈ groupOf "glow serum" [c1TitledA, c1Untitled, c1TitledB], u ∈ i.images) ∧
      (2 ≤ (groupOf "glow serum" [c1TitledA, c1Untitled, c1TitledB]).length →
        o.platforms.Nodup ∧ o.images.Nodup) :=
  c4_merge_groups [c1TitledA, c1Untitled, c1TitledB] "glow serum" (by decide)

/-- C2 (counterexample).  The claim states that a run that ends in an error
after its record was created is left with status `failed`.  Here every
external call succeeds except the final run-status update, so the run throws
after its record exists; `runTracker` reports failure but leaves the record
with status `running` — it never writes `failed` (nor `pending`). -/
theorem c2_no_failed_status_counterexample :
    (runTracker envRunFailsUpdate demoDb 1).1.success = false ∧
    (runTracker envRunFailsUpdate demoDb 1).2.runs.map RunRow.status =
      [RunStatus.running] := by decide

/-- C2 (amended).  Every run record `runTracker` creates is inserted directly
with status `running` (the `pending` state is never used) and the only other
status ever written is `completed`, reached on the success path; when an
error is thrown after the record was created, the record keeps status
`running` — no transition to `failed` is ever performed.  Consequently every
run touched by `runTracker` has status `running` or `completed`, and a
successful call leaves its created run `completed`. -/
theorem c2_run_status_machine (env : RunEnv) (db : Db) (tid : Nat) :
    (∀ r ∈ (runTracker env db tid).2.runs,
        r ∈ db.runs ∨ r.status = RunStatus.running ∨ r.status = RunStatus.completed) ∧
    ((runTracker env db tid).1.success = true →
      ∃ r ∈ (runTracker env db tid).2.runs,
        r.id = db.nextRunId ∧ r.status = RunStatus.completed) := by
  rcases runTracker_run_cases env db tid with ⟨hruns, hsucc⟩ | ⟨hruns, hsucc⟩ | hruns
  · constructor
    · intro r hr
      rw [hruns] at hr
      exact Or.inl hr
    · intro h
      rw [hsucc] at h
      exact absurd h (by simp)
  · constructor
    · intro r hr
      rw [hruns] at hr
      rcases List.mem_append.mp hr with h1 | h1
      · exact Or.inl h1
      · rcases List.mem_singleton.mp h1 with rfl
        exact Or.inr (Or.inl rfl)
    · intro h
      rw [hsucc] at h
      exact absurd h (by simp)
  · constructor
    · intro r hr
      rw [hruns] at hr
      rcases List.mem_map.mp hr with ⟨r0, hr0, rfl⟩
      by_cases hid : r0.id = db.nextRunId
      · simp [hid]
      · simp only [if_neg hid]
        rcases List.mem_append.mp hr0 with h1 | h1
        · exact Or.inl h1
        · rcases List.mem_singleton.mp h1 with rfl
          exact Or.inr (Or.inl rfl)
    · intro _
      refine ⟨{ createdRun env db tid with
          status := .completed, completedAt := some env.now }, ?_, rfl, rfl⟩
      rw [hruns]
      refine List.mem_map.mpr ⟨createdRun env db tid,
        List.mem_append_right _ (List.mem_singleton.mpr rfl), ?_⟩
      simp [createdRun]

/-- C2 (witness): the amended theorem applied to a fully successful concrete
run, exhibiting the created run left in status `completed`. -/
theorem c2_run_status_machine_witness :
    ∃ r ∈ (runTracker envRunOk demoDb 1).2.runs,
      r.id = demoDb.nextRunId ∧ r.status = RunStatus.completed :=
  (c2_run_status_machine envRunOk demoDb 1).2 (by decide)

/-- C3.  When the enrichment completion returns text that is not valid JSON,
`enrichResults` returns exactly the original (non-empty) item list, and a
run whose other external calls succeed still finishes with its run record in
status `completed` and reports success, with the collected items passed
through unchanged. -/
theorem c3_enrich_invalid_json_passthrough :
    (∀ results : List TrackerResult, results ≠ [] →
        enrichResults CompletionOutcome.invalidJson results = results) ∧
    (∀ (env : RunEnv) (db : Db) (tid : Nat) (tracker : TrackerRow),
        db.trackers.find? (fun t => decide (t.id = tid)) = some tracker →
        env.completion = CompletionOutcome.invalidJson →
        env.runInsert = .ok () → env.resultsInsert = .ok () →
        env.runUpdate = .ok () → env.trackerUpdate = .ok () →
        (runTracker env db tid).1.success = true ∧
        (runTracker env db tid).1.results = collectedResults env tracker ∧
        ∃ r ∈ (runTracker env db tid).2.runs,
          r.id = db.nextRunId ∧ r.status = RunStatus.completed) := by
  constructor
  · intro results _
    exact enrichResults_invalidJson results
  · intro env db tid tracker hfind hcomp hins hres hupd htr
    obtain ⟨h1, h2, -, -, -⟩ :=
      runTracker_success_path env db tid tracker hfind hins (Or.inr hres) hupd htr
    refine ⟨h1, ?_,
      runTracker_success_completed_run env db tid tracker hfind hins (Or.inr hres) hupd htr⟩
    rw [h2, hcomp, enrichResults_invalidJson]

/-- C3 (witness): the fallback theorem applied to a concrete run whose
completion returns invalid JSON while the single search succeeds. -/
theorem c3_enrich_invalid_json_witness :
    enrichResults CompletionOutcome.invalidJson
        (searchWithFirecrawl (Except.ok (some [demoItem]))) =
      searchWithFirecrawl (Except.ok (some [demoItem])) ∧
    (runTracker envRunInvalidJson demoDb 1).1.success = true ∧
    (runTracker envRunInvalidJson demoDb 1).1.results =
      collectedResults envRunInvalidJson demoTracker ∧
    ∃ r ∈ (runTracker envRunInvalidJson demoDb 1).2.runs,
      r.id = demoDb.nextRunId ∧ r.status = RunStatus.completed :=
  ⟨c3_enrich_invalid_json_passthrough.1 (searchWithFirecrawl (Except.ok (some [demoItem])))
      (by decide),
   c3_enrich_invalid_json_passthrough.2 envRunInvalidJson demoDb 1 demoTracker
      (by decide) rfl rfl rfl rfl rfl⟩

/-- C5.  A failing source search contributes zero results
(`searchWithFirecrawl` of a failed call is the empty list), and a run in
which every source search fails still succeeds: it stores no results and its
run record ends in status `completed`, not `failed`. -/
theorem c5_all_sources_fail_still_completed :
    (∀ msg : String, searchWithFirecrawl (Except.error msg) = []) ∧
    (∀ (env : RunEnv) (db : Db) (tid : Nat) (tracker : TrackerRow),
        db.trackers.find? (fun t => decide (t.id = tid)) = some tracker →
        (∀ q, ∃ msg, env.search q = Except.error msg) →
        env.runInsert = .ok () → env.runUpdate = .ok () → env.trackerUpdate = .ok () →
        (runTracker env db tid).1.success = true ∧
        (runTracker env db tid).1.results = [] ∧
        (runTracker env db tid).2.results = db.results ∧
        ∃ r ∈ (runTracker env db tid).2.runs,
          r.id = db.nextRunId ∧ r.status = RunStatus.completed) := by
  constructor
  · intro msg
    exact searchWithFirecrawl_error msg
  · intro env db tid tracker hfind hfail hins hupd htr
    have hcoll : collectedResults env tracker = [] :=
      collectedResults_of_all_fail env tracker hfail
    have hnil : enrichResults env.completion (collectedResults env tracker) = [] := by
      rw [hcoll]
      rfl
    obtain ⟨h1, h2, -, -, h5⟩ :=
      runTracker_success_path env db tid tracker hfind hins (Or.inl hnil) hupd htr
    refine ⟨h1, ?_, ?_,
      runTracker_success_completed_run env db tid tracker hfind hins (Or.inl hnil) hupd htr⟩
    · rw [h2, hnil]
    · rw [h5, hnil]
      simp [resultRowsOf]

/-- C5 (witness): the theorem applied to a concrete run in which the only
configured query times out. -/
theorem c5_all_sources_fail_witness :
    searchWithFirecrawl (Except.error "timeout") = [] ∧
    (runTracker envRunAllFail demoDb 1).1.success = true ∧
    (runTracker envRunAllFail demoDb 1).1.results = [] ∧
    (runTracker envRunAllFail demoDb 1).2.results = demoDb.results ∧
    ∃ r ∈ (runTracker envRunAllFail demoDb 1).2.runs,
      r.id = demoDb.nextRunId ∧ r.status = RunStatus.completed :=
  ⟨c5_all_sources_fail_still_completed.1 "timeout",
   c5_all_sources_fail_still_completed.2 envRunAllFail demoDb 1 demoTracker
      (by decide) (fun _ => ⟨"timeout", rfl⟩) rfl rfl rfl⟩

/-- C6 (counterexample).  The claim states that the ranker orders by a
lexicographic priority in which presence of media outranks the relevance
score.  `rankResults` instead sorts by the weighted sum
`relevance*10 + mediaCount*5 + recency + sourceBonus`: here the item with
media (score 15) is ranked **below** the media-less item whose relevance
alone contributes 20, contradicting the claimed priority order. -/
theorem c6_rank_not_media_first_counterexample :
    rankResults 0 [rankItemA, rankItemB] = [rankItemB, rankItemA] ∧
    rankItemA.media.getD [] ≠ [] ∧ rankItemB.media.getD [] = [] := by
  refine ⟨?_, by simp [rankItemA], by simp [rankItemB]⟩
  have hA : itemScore 0 rankItemA = 15 := by
    norm_num [itemScore, rankItemA]
    simp
  have hB : itemScore 0 rankItemB = 30 := by
    norm_num [itemScore, rankItemB]
    simp
  norm_num [rankResults, jsSort, jsInsert, hA, hB]

/-- C6 (amended).  `rankResults` output is a permutation of its input,
ordered by the total weighted score `itemScore` (relevance*10 +
5*media-count + recency decay + fixed bonus 3 for the exa/firecrawl
sources) in descending order, and the sort is stable: for every score value,
the output items carrying that score are exactly the input items carrying
it, in input order — so ties keep stable input order — and the whole order
is a deterministic function of the items and the current time. -/
theorem c6_rank_perm_sorted_amended (now : Int) (l : List RankItem) :
    List.Perm (rankResults now l) l ∧
    (rankResults now l).Pairwise (fun a b => itemScore now b ≤ itemScore now a) ∧
    ∀ s : Rat,
      (rankResults now l).filter (fun a => decide (itemScore now a = s)) =
        l.filter (fun a => decide (itemScore now a = s)) := by
  refine ⟨jsSort_perm _ l, ?_, ?_⟩
  · have h := jsSort_pairwise (fun a b => decide (itemScore now b ≤ itemScore now a))
      (rankGe_total now) (fun a b c => rankGe_trans now a b c) l
    exact h.imp (fun hab => of_decide_eq_true hab)
  · intro s
    exact jsSort_filter_stable (itemScore now) s l

/-- C7 (counterexample).  The claim states that a tracker's latest results
are those of its most recent **completed** run.  `getTrackerWithResults`
selects the most recent run with no status filter: in this database the
newest run failed and has no results, so the code returns `[]` although the
most recent completed run has a result. -/
theorem c7_latest_results_counterexample :
    (getTrackerWithResults c7Env c7Db 1).results ≠ specLatestResults c7Db 1 ∧
    (getTrackerWithResults c7Env c7Db 1).success = true := by decide

/-- C7 (amended).  For a tracker that exists, when every query succeeds the
returned results are exactly the `TrackerResults` of the tracker's most
recent run **regardless of that run's status** (by maximal `started_at`),
ordered by score descending (SQL null scores first); with no runs at all the
result list is empty. -/
theorem c7_latest_any_run_amended (env : GetEnv) (db : Db) (tid : Nat)
    (tracker : TrackerRow)
    (henv1 : env.trackerFetch = .ok ()) (henv2 : env.runFetch = .ok true)
    (henv3 : env.resultsFetch = .ok true)
    (hfind : db.trackers.find? (fun t => decide (t.id = tid)) = some tracker) :
    (getTrackerWithResults env db tid).success = true ∧
    (db.runs.filter (fun r => decide (r.trackerId = tid)) = [] →
      (getTrackerWithResults env db tid).results = []) ∧
    (db.runs.filter (fun r => decide (r.trackerId = tid)) ≠ [] →
      ∃ run ∈ db.runs, run.trackerId = tid ∧
        (∀ r2 ∈ db.runs, r2.trackerId = tid → r2.startedAt ≤ run.startedAt) ∧
        (getTrackerWithResults env db tid).latestRun = some run ∧
        List.Perm (getTrackerWithResults env db tid).results
          (db.results.filter (fun res => decide (res.runId = run.id))) ∧
        (getTrackerWithResults env db tid).results.Pairwise
          (fun a b => scoreDescGe a b = true)) := by
  simp only [getTrackerWithResults, henv1, henv2, henv3, hfind, if_pos]
  cases hflt : db.runs.filter (fun r => decide (r.trackerId = tid)) with
  | nil =>
    refine ⟨rfl, fun _ => rfl, fun hne => absurd rfl hne⟩
  | cons f fs =>
    have hperm := jsSort_perm startedDescGe (f :: fs)
    have hne2 : jsSort startedDescGe (f :: fs) ≠ [] := by
      intro h0
      have hlen := hperm.length_eq
      rw [h0] at hlen
      simp at hlen
    cases hsorted : jsSort startedDescGe (f :: fs) with
    | nil => exact absurd hsorted hne2
    | cons run rest =>
      have hpw := jsSort_pairwise startedDescGe startedDescGe_total
        (fun a b c => startedDescGe_trans a b c) (f :: fs)
      rw [hsorted] at hpw hperm
      have hrunmem : run ∈ db.runs.filter (fun r => decide (r.trackerId = tid)) := by
        rw [hflt]
        exact hperm.mem_iff.mp (List.mem_cons_self run rest)
      have hrun := List.mem_filter.mp hrunmem
      refine ⟨rfl, fun h => by simp at h, fun _ => ?_⟩
      refine ⟨run, hrun.1, of_decide_eq_true hrun.2, ?_, rfl, ?_, ?_⟩
      · intro r2 hr2 hr2t
        have hr2f : r2 ∈ db.runs.filter (fun r => decide (r.trackerId = tid)) :=
          List.mem_filter.mpr ⟨hr2, decide_eq_true hr2t⟩
        rw [hflt] at hr2f
        have hr2s : r2 ∈ run :: rest := hperm.symm.mem_iff.mp hr2f
        rcases List.mem_cons.mp hr2s with rfl | hr2s
        · exact le_refl _
        · exact of_decide_eq_true (List.rel_of_pairwise_cons hpw hr2s)
      · exact jsSort_perm scoreDescGe _
      · exact jsSort_pairwise scoreDescGe scoreDescGe_total
          (fun a b c => scoreDescGe_trans a b c) _

/-- C7 (witness): the amended theorem applied to the concrete two-run
database, exhibiting the failed newer run as the selected one. -/
theorem c7_latest_any_run_witness :
    (getTrackerWithResults c7Env c7Db 1).success = true ∧
    (c7Db.runs.filter (fun r => decide (r.trackerId = 1)) = [] →
      (getTrackerWithResults c7Env c7Db 1).results = []) ∧
    (c7Db.runs.filter (fun r => decide (r.trackerId = 1)) ≠ [] →
      ∃ run ∈ c7Db.runs, run.trackerId = 1 ∧
        (∀ r2 ∈ c7Db.runs, r2.trackerId = 1 → r2.startedAt ≤ run.startedAt) ∧
        (getTrackerWithResults c7Env c7Db 1).latestRun = some run ∧
        List.Perm (getTrackerWithResults c7Env c7Db 1).results
          (c7Db.results.filter (fun res => decide (res.runId = run.id))) ∧
        (getTrackerWithResults c7Env c7Db 1).results.Pairwise
          (fun a b => scoreDescGe a b = true)) :=
  c7_latest_any_run_amended c7Env c7Db 1 demoTracker rfl rfl rfl (by decide)

/-- C8.  A creation request whose prompt is missing or empty is rejected
with a 400 configuration error before the engine is invoked: the database is
returned unchanged, so no `Tracker` and no `TrackerRun` is ever created and
no run is started. -/
theorem c8_blank_prompt_rejected (cenv : CreateEnv) (renv : RunEnv) (now : Int)
    (db : Db) (b : PostBody) (h : b.prompt = none ∨ b.prompt = some "") :
    postTrackers cenv renv now db (some b) =
      ({ status := 400, error := some "Prompt is required", tracker := none, run := none },
        db) := by
  rcases h with h | h <;> simp [postTrackers, h]

/-- C8 (witness): the rejection theorem applied to a concrete body with an
empty prompt string. -/
theorem c8_blank_prompt_rejected_witness :
    postTrackers envCreateOk envRunOk 0 dbEmpty (some bodyEmptyPrompt) =
      ({ status := 400, error := some "Prompt is required", tracker := none, run := none },
        dbEmpty) :=
  c8_blank_prompt_rejected envCreateOk envRunOk 0 dbEmpty bodyEmptyPrompt (Or.inr rfl)

/-- C9.  Because the inserted row's flag is `config.isPublic || true`, every
tracker row built by `createTracker` has `is_public = true` — for every
configuration, including one that explicitly sets `isPublic` to `false` — so
this entry point can never create a private tracker. -/
theorem c9_created_trackers_always_public :
    (∀ (id : Nat) (now : Int) (config : EngineConfig) (parsed : ParsedConfig),
        (trackerRowOf id now config parsed).isPublic = true) ∧
    (∀ (env : CreateEnv) (now : Int) (db : Db) (config : EngineConfig),
        ∀ t ∈ (createTracker env now db config).2.trackers,
          t ∈ db.trackers ∨ t.isPublic = true) := by
  have hrow : ∀ (id : Nat) (now : Int) (config : EngineConfig) (parsed : ParsedConfig),
      (trackerRowOf id now config parsed).isPublic = true := by
    intro id now config parsed
    cases h : config.isPublic with
    | none => simp [trackerRowOf, h]
    | some b => cases b <;> simp [trackerRowOf, h]
  refine ⟨hrow, ?_⟩
  intro env now db config t ht
  have hcases : (createTracker env now db config).2.trackers = db.trackers ∨
      (createTracker env now db config).2.trackers =
        db.trackers ++
          [trackerRowOf db.nextTrackerId now config (parsePrompt env.parse config.prompt)] := by
    simp only [createTracker]
    split
    · exact Or.inl rfl
    · exact Or.inr rfl
  rcases hcases with hc | hc
  · rw [hc] at ht
    exact Or.inl ht
  · rw [hc] at ht
    rcases List.mem_append.mp ht with h1 | h1
    · exact Or.inl h1
    · rcases List.mem_singleton.mp h1 with rfl
      exact Or.inr (hrow _ _ _ _)

/-- C9 (witness): the theorem applied to a concrete configuration with
`isPublic := some false`; the inserted row is nevertheless public. -/
theorem c9_created_trackers_always_public_witness :
    rowPrivate ∈ dbEmpty.trackers ∨ rowPrivate.isPublic = true :=
  c9_created_trackers_always_public.2 envCreateOk 0 dbEmpty cfgPrivate rowPrivate (by decide)

/-- C10.  Every public operation of the engine and of the Firecrawl service
is a total function of its environment (no exception escapes to the caller:
each embedded operation is defined for every outcome of its external calls)
and reports through a `success` flag, every failing execution carrying an
error message. -/
theorem c10_ops_total_with_success_flag :
    (∀ (env : CreateEnv) (now : Int) (db : Db) (config : EngineConfig),
        (createTracker env now db config).1.success = true ∨
        ((createTracker env now db config).1.success = false ∧
          ((createTracker env now db config).1.error).isSome = true)) ∧
    (∀ (env : RunEnv) (db : Db) (tid : Nat),
        (runTracker env db tid).1.success = true ∨
        ((runTracker env db tid).1.success = false ∧
          ((runTracker env db tid).1.error).isSome = true)) ∧
    (∀ (env : GetEnv) (db : Db) (tid : Nat),
        (getTrackerWithResults env db tid).success = true ∨
        ((getTrackerWithResults env db tid).success = false ∧
          ((getTrackerWithResults env db tid).error).isSome = true)) ∧
    (∀ (outcome : Except String Unit) (db : Db),
        (getPublicTrackers outcome db).success = true ∨
        ((getPublicTrackers outcome db).success = false ∧
          ((getPublicTrackers outcome db).error).isSome = true)) ∧
    (∀ outcome : Except String (Option (List FcClientItem)),
        (fcSearch outcome).success = true ∨
        ((fcSearch outcome).success = false ∧ ((fcSearch outcome).error).isSome = true)) ∧
    (∀ (outcome : Except String (Option FcPage)) (url : String),
        (fcScrape outcome url).success = true ∨
        ((fcScrape outcome url).success = false ∧
          ((fcScrape outcome url).error).isSome = true)) := by
  refine ⟨?_, ?_, ?_, ?_, ?_, ?_⟩
  · intro env now db config
    simp only [createTracker]
    split
    · exact Or.inr ⟨rfl, rfl⟩
    · exact Or.inl rfl
  · intro env db tid
    simp only [runTracker]
    split
    · exact Or.inr ⟨rfl, rfl⟩
    · split
      · exact Or.inr ⟨rfl, rfl⟩
      · split
        · exact Or.inr ⟨rfl, rfl⟩
        · split
          · exact Or.inr ⟨rfl, rfl⟩
          · split
            · exact Or.inr ⟨rfl, rfl⟩
            · exact Or.inl rfl
  · intro env db tid
    simp only [getTrackerWithResults]
    split
    · exact Or.inr ⟨rfl, rfl⟩
    · split
      · exact Or.inr ⟨rfl, rfl⟩
      · split
        · exact Or.inr ⟨rfl, rfl⟩
        · split
          · exact Or.inl rfl
          · split
            · exact Or.inr ⟨rfl, rfl⟩
            · exact Or.inl rfl
  · intro outcome db
    cases outcome with
    | error e => exact Or.inr ⟨rfl, rfl⟩
    | ok u => exact Or.inl rfl
  · intro outcome
    cases outcome with
    | error e => exact Or.inr ⟨rfl, rfl⟩
    | ok d => cases d <;> exact Or.inl rfl
  · intro outcome url
    cases outcome with
    | error e => exact Or.inr ⟨rfl, rfl⟩
    | ok d => exact Or.inl rfl

end TrackerPlatform
